import Mathlib

/-!
Verification of the data-transformation core of GPEP (`src/data_processing.py`).

The Python source is shallowly embedded:
* numpy arrays become `List`s; a NaN-capable array becomes `List (Option ℚ)`
  with `none` playing the role of NaN;
* real-valued power arithmetic (`x ** (1/texp)`) is modelled with `Real.rpow`;
* exact rational arithmetic (`ℚ`) is used wherever the claims are about
  control flow, ordering or clamping rather than transcendental values;
* the SciPy externals `norm.ppf`, `norm.cdf` and `gamma.ppf` are not part of
  this repository and enter the model as explicit function parameters;
  `scipy.interpolate.interp1d` (linear, `bounds_error=False`, optionally
  `fill_value` extrapolation) is modelled concretely by piecewise-linear
  interpolation over the table nodes.
-/

/-- `boxcox_transform(data, texp)` from `data_processing.py` (lines 13-21):
clamp negatives to 0, then map `x ↦ (x^(1/texp) - 1) / (1/texp)` elementwise. -/
noncomputable def boxcox_transform (data : List ℝ) (texp : ℝ) : List ℝ :=
  let clamped := data.map (fun x => if x < 0 then 0 else x)
  clamped.map (fun x => (x ^ (1 / texp) - 1) / (1 / texp))

/-- `boxcox_back_transform(data, texp)` (lines 23-31): clamp values below
`-texp` up to `-texp`, then map `x ↦ (x/texp + 1)^texp` elementwise. -/
noncomputable def boxcox_back_transform (data : List ℝ) (texp : ℝ) : List ℝ :=
  let clamped := data.map (fun x => if x < -texp then -texp else x)
  clamped.map (fun x => (x / texp + 1) ^ texp)

/-- `create_cdf_df(data)` (lines 60-65): keep the strictly positive values,
sort ascending, and pair the sorted values with empirical probabilities
`(i+1)/n` for `i = 0, …, n-1` (numpy `arange(1, n+1) / n`).  A table is the
list of its (Value, CDF) rows. -/
def create_cdf_df (data : List ℚ) : List (ℚ × ℚ) :=
  let valid_data := data.filter (fun x => 0 < x)
  let sorted_data := valid_data.insertionSort (fun a b => a ≤ b)
  let cdf_values := (List.range sorted_data.length).map
    (fun i : ℕ => ((i + 1 : ℕ) : ℚ) / (sorted_data.length : ℚ))
  sorted_data.zip cdf_values

/-- `np.clip(p, lo, hi)` for scalars. -/
def np_clip (p lo hi : ℚ) : ℚ := min (max p lo) hi

/-- Linear interpolation on the segment `p0 – p1`; a degenerate (zero-width)
segment returns the right endpoint. -/
def lin_seg (p0 p1 : ℚ × ℚ) (q : ℚ) : ℚ :=
  if p1.1 = p0.1 then p1.2
  else p0.2 + (q - p0.1) * (p1.2 - p0.2) / (p1.1 - p0.1)

/-- Piecewise-linear interpolation through the nodes `p0 :: rest`, using the
nearest segment outside the node range (scipy `fill_value` extrapolation). -/
def lin_interp_extrap : ℚ × ℚ → List (ℚ × ℚ) → ℚ → ℚ
  | p0, [], _ => p0.2
  | p0, p1 :: rest, q =>
      if q ≤ p1.1 ∨ rest = [] then lin_seg p0 p1 q
      else lin_interp_extrap p1 rest q

/-- The query semantics of a `scipy.interpolate.interp1d(xs, ys,
bounds_error=False)` interpolant at `q`: `none` (NaN) outside the node range,
linear interpolation inside.  This is the behavior after a successful
construction only; the scipy constructor itself raises ValueError when given
fewer than two nodes, which is modelled by `interp1d_ctor` below. -/
def interp1d (table : List (ℚ × ℚ)) (q : ℚ) : Option ℚ :=
  match table with
  | [] => none
  | p0 :: rest =>
      if q < p0.1 ∨ (rest.getLastD p0).1 < q then none
      else some (lin_interp_extrap p0 rest q)

/-- The `scipy.interpolate.interp1d` constructor with the default
`kind=linear` (as called at line 163): it raises
`ValueError: x and y arrays must have at least 2 entries` for a table with
fewer than two rows — modelled as `none`; on success it returns the
bounds-checked interpolant `interp1d table`. -/
def interp1d_ctor (table : List (ℚ × ℚ)) : Option (ℚ → Option ℚ) :=
  if 2 ≤ table.length then some (interp1d table) else none

/-- `interp1d(xs, ys, bounds_error=False, fill_value=extrapolate)`:
total, extrapolating with the nearest segment. -/
def interp1d_extrapolate (table : List (ℚ × ℚ)) (q : ℚ) : ℚ :=
  match table with
  | [] => 0
  | p0 :: rest => lin_interp_extrap p0 rest q

/-- One cell of the forward quantile-normal transform
(`normal_quantile_transform`, lines 156-175): a cell is written only when the
observation is present and strictly positive and the stratum table is
non-empty; the interpolated probability is clipped to `[0, 0.99999]` before
the (abstract) inverse normal CDF `ppf` is applied; `interp1d` out-of-range
queries yield NaN (`none`), which clip and `ppf` propagate.  The ValueError
the scipy constructor raises on tables with a single row (see
`interp1d_ctor`) is not propagated at the cell level; `nqt_stratum_z` below
models it where a claim depends on it. -/
def nqt_cell (ppf : ℚ → ℚ) (table : List (ℚ × ℚ)) (v : Option ℚ) : Option ℚ :=
  match v with
  | none => none
  | some x =>
      if 0 < x then
        if table = [] then none
        else (interp1d table x).map (fun p => ppf (np_clip p 0 (99999 / 100000)))
      else none

/-- The largest value of a non-empty CDF table (its last row, the table being
sorted ascending by value). -/
def max_observed (table : List (ℚ × ℚ)) : ℚ := (table.getLastD (0, 0)).1

/-- The forward z-score of one value of a stratum (lines 163-165) with the
construction step explicit: `cdf_interp = interp1d(Value, CDF)` raises for a
table with fewer than two rows (outer `none`); otherwise the interpolated
probability — NaN (inner `none`) when `x` is out of range — is clipped to
`[0, 0.99999]` and passed to the (abstract) inverse normal CDF `ppf`. -/
def nqt_stratum_z (ppf : ℚ → ℚ) (table : List (ℚ × ℚ)) (x : ℚ) :
    Option (Option ℚ) :=
  (interp1d_ctor table).map
    (fun cdf_interp => (cdf_interp x).map
      (fun p => ppf (np_clip p 0 (99999 / 100000))))

/-- `normal_quantile_transform(data, times, monthly_cdfs, settings)`
(lines 138-188), station-major: `data` is one time series per station
(`df = DataFrame(data.T)`, so stations are the columns), `times` the month
tag of each time step, `cdfs j m` the stratum table of station `j` and month
`m` (in pooled mode the same table for every `j`).  Per-cell values follow
`nqt_cell`; afterwards the trailing pass of the month loop (lines 178-186) first
replaces every NaN by `min_z_value` (`np.nan_to_num`) and then overwrites the
columns recorded in `nan_columns` (stations whose input is entirely NaN,
line 151) with NaN again. -/
def normal_quantile_transform (ppf : ℚ → ℚ) (cdfs : ℕ → ℕ → List (ℚ × ℚ))
    (min_z_value : ℚ) (times : List ℕ) (data : List (List (Option ℚ))) :
    List (List (Option ℚ)) :=
  let nan_columns := data.map (fun col => col.all (fun v => v.isNone))
  let transformed_data := data.enum.map (fun jc =>
    (times.zip jc.2).map (fun tv =>
      if 1 ≤ tv.1 ∧ tv.1 ≤ 12 then nqt_cell ppf (cdfs jc.1 tv.1) tv.2 else none))
  let transformed_data_filled := transformed_data.map
    (fun col => col.map (fun z => z.getD min_z_value))
  (transformed_data_filled.zip nan_columns).map (fun cb =>
    if cb.2 = true then cb.1.map (fun _ => (none : Option ℚ)) else cb.1.map some)

/-- The neighbor values pooled after consulting the first `k` neighbors. -/
def pooled_values (nearby : ℕ → List ℚ) (k : ℕ) : List ℚ :=
  ((List.range k).map nearby).flatten

/-- The `while num_obs < min_obs and iteration < 5` loop of
`add_nearby_stations_to_cdfs` (lines 92-106): on the first iteration the
accumulator is reset to the own values of the station before the neighbor values
are appended; `num_obs` tracks the accumulated size. -/
def add_nearby_loop (min_obs : ℕ) (own : List ℚ) (nearby : ℕ → List ℚ)
    (station_cdf : List ℚ) (num_obs iteration : ℕ) : List ℚ :=
  if h : num_obs < min_obs ∧ iteration < 5 then
    let station_cdf2 := (if iteration = 0 then own else station_cdf) ++ nearby iteration
    add_nearby_loop min_obs own nearby station_cdf2 station_cdf2.length (iteration + 1)
  else station_cdf
termination_by 5 - iteration
decreasing_by omega

/-- The per-(station, month) body of `add_nearby_stations_to_cdfs`
(lines 84-108): if the monthly table of the station has fewer than `min_obs`
values, pool neighbor values via the loop and rebuild the table with
`create_cdf_df`; otherwise the table is left unchanged.  `nearby i` is the
value column of the table of the `i`-th nearest neighbor for this month. -/
def add_nearby_station (min_obs : ℕ) (own_table : List (ℚ × ℚ))
    (nearby : ℕ → List ℚ) : List (ℚ × ℚ) :=
  let own := own_table.map Prod.fst
  if own.length < min_obs then
    create_cdf_df (add_nearby_loop min_obs own nearby [] own.length 0)
  else own_table

/-- The per-stratum body of `inverse_normal_quantile_transform`
(lines 216-240): with a non-empty table, map z-scores through the (abstract)
standard normal CDF, invert the empirical CDF by extrapolating linear
interpolation on the swapped (CDF, Value) columns, mark reconstructed values
below `min_est_value` as NaN, then turn every NaN into 0 (`np.nan_to_num`);
with an empty table, output zeros. -/
def inverse_nqt_stratum (normCdf : ℚ → ℚ) (empirical_cdf : List (ℚ × ℚ))
    (min_est_value : ℚ) (z_scores : List ℚ) : List ℚ :=
  if empirical_cdf ≠ [] then
    let inv_table := empirical_cdf.map (fun p => (p.2, p.1))
    let cum_probs := z_scores.map normCdf
    let original_values := cum_probs.map (fun p => interp1d_extrapolate inv_table p)
    let filtered := original_values.map
      (fun v => if v < min_est_value then (none : Option ℚ) else some v)
    filtered.map (fun v => v.getD 0)
  else z_scores.map (fun _ => 0)

/-- The cumulative probabilities fed to `gamma.ppf` on the 2-D (per-station)
path of `gamma_back_transform` (lines 336-337): `norm.cdf` output, unclipped. -/
def gamma_back_probs_2d (normCdf : ℚ → ℚ) (z_scores : List ℚ) : List ℚ :=
  z_scores.map normCdf

/-- The cumulative probabilities fed to `gamma.ppf` on the 3-D (gridded) path
of `gamma_back_transform` (lines 349-351): `norm.cdf` output clipped to
`[0, 0.99999]`. -/
def gamma_back_probs_3d (normCdf : ℚ → ℚ) (z_scores : List ℚ) : List ℚ :=
  (z_scores.map normCdf).map (fun p => np_clip p 0 (99999 / 100000))

/-- The tail of `gamma_back_transform` shared by both paths (lines 358-362):
apply the (abstract) gamma quantile `gamma_ppf` to the cumulative
probabilities, mark values below `min_est_value` as NaN, convert NaN to 0. -/
def gamma_back_values (gamma_ppf : ℚ → ℚ) (min_est_value : ℚ)
    (cum_probs : List ℚ) : List ℚ :=
  let original_values := cum_probs.map gamma_ppf
  let filtered := original_values.map
    (fun v => if v < min_est_value then (none : Option ℚ) else some v)
  filtered.map (fun v => v.getD 0)

/-- The per-stratum body of `gamma_back_transform` (lines 318-367): the empty
z-score stratum writes nothing; otherwise the probabilities (clipped only on
the 3-D path) go through `gamma_back_values`. -/
def gamma_back_stratum (dim3 : Bool) (normCdf gamma_ppf : ℚ → ℚ)
    (min_est_value : ℚ) (z_scores : List ℚ) : List ℚ :=
  if z_scores = [] then []
  else gamma_back_values gamma_ppf min_est_value
    (if dim3 then gamma_back_probs_3d normCdf z_scores
     else gamma_back_probs_2d normCdf z_scores)

/-- Result of the dispatcher: either a value for the caller, or process
termination (`sys.exit()`). -/
inductive TransformResult (α : Type) where
  | ok : α → TransformResult α
  | exit : TransformResult α

/-- `data_transformation(data, method, settings, mode, ...)` (lines 380-412):
string-tag dispatch over method and mode; the component transforms are the
abstract operations `boxcox_fwd … gamma_back`.  Unrecognized tags reach
`print(...); sys.exit()`, modelled as `TransformResult.exit`. -/
def data_transformation {α : Type} (method mode : String)
    (boxcox_fwd boxcox_back ecdf_fwd ecdf_back gamma_fwd gamma_back : α → α)
    (data : α) : TransformResult α :=
  if method = "boxcox" then
    if mode = "transform" then TransformResult.ok (boxcox_fwd data)
    else if mode = "back_transform" then TransformResult.ok (boxcox_back data)
    else TransformResult.exit
  else if method = "ecdf" then
    if mode = "transform" then TransformResult.ok (ecdf_fwd data)
    else if mode = "back_transform" then TransformResult.ok (ecdf_back data)
    else TransformResult.exit
  else if method = "gamma_monthly" then
    if mode = "transform" then TransformResult.ok (gamma_fwd data)
    else if mode = "back_transform" then TransformResult.ok (gamma_back data)
    else TransformResult.exit
  else TransformResult.exit

/-- A heap of numpy arrays, for the aliasing/mutation claims: `arrays` maps a
reference to its contents, `next` is the next fresh reference. -/
structure NpHeap where
  arrays : ℕ → List ℝ
  next : ℕ

/-- Read an array from the heap. -/
def NpHeap.read (h : NpHeap) (r : ℕ) : List ℝ := h.arrays r

/-- Overwrite an array in place (numpy boolean-mask assignment). -/
def NpHeap.write (h : NpHeap) (r : ℕ) (v : List ℝ) : NpHeap :=
  ⟨Function.update h.arrays r v, h.next⟩

/-- Allocate a fresh array (numpy `copy()` / fresh result array). -/
def NpHeap.alloc (h : NpHeap) (v : List ℝ) : NpHeap × ℕ :=
  (⟨Function.update h.arrays h.next v, h.next + 1⟩, h.next)

/-- `boxcox_transform` with explicit array references (lines 16-21):
`data = data.copy()` allocates, `data[data<0] = 0` mutates the copy in place,
and the result `datat` is a fresh array. -/
noncomputable def boxcox_transform_np (h : NpHeap) (r : ℕ) (texp : ℝ) :
    NpHeap × ℕ :=
  let copy := h.alloc (h.read r)
  let h1 := copy.1
  let dataRef := copy.2
  let h2 := h1.write dataRef
    ((h1.read dataRef).map (fun x => if x < 0 then 0 else x))
  h2.alloc ((h2.read dataRef).map (fun x => (x ^ (1 / texp) - 1) / (1 / texp)))

/-- `boxcox_back_transform` with explicit array references (lines 26-31). -/
noncomputable def boxcox_back_transform_np (h : NpHeap) (r : ℕ) (texp : ℝ) :
    NpHeap × ℕ :=
  let copy := h.alloc (h.read r)
  let h1 := copy.1
  let dataRef := copy.2
  let h2 := h1.write dataRef
    ((h1.read dataRef).map (fun x => if x < -texp then -texp else x))
  h2.alloc ((h2.read dataRef).map (fun x => (x / texp + 1) ^ texp))

/-! ## Helper lemmas about the empirical CDF builder -/

lemma create_cdf_df_map_fst (data : List ℚ) :
    (create_cdf_df data).map Prod.fst =
      (data.filter (fun x => 0 < x)).insertionSort (fun a b => a ≤ b) := by
  unfold create_cdf_df
  apply List.map_fst_zip
  simp

lemma create_cdf_df_sorted (data : List ℚ) :
    ((create_cdf_df data).map Prod.fst).Sorted (fun a b => a ≤ b) := by
  rw [create_cdf_df_map_fst]
  exact List.sorted_insertionSort _ _

lemma create_cdf_df_fst_pos (data : List ℚ) :
    ∀ p ∈ create_cdf_df data, 0 < p.1 := by
  intro p hp
  have h1 : p.1 ∈ (create_cdf_df data).map Prod.fst := List.mem_map_of_mem _ hp
  rw [create_cdf_df_map_fst] at h1
  have h2 : p.1 ∈ data.filter (fun x => 0 < x) :=
    ((List.perm_insertionSort _ _).mem_iff).1 h1
  simpa using (List.mem_filter.1 h2).2

lemma create_cdf_df_snd_bounds (data : List ℚ) :
    ∀ p ∈ create_cdf_df data, 0 < p.2 ∧ p.2 ≤ 1 := by
  rintro ⟨a, b⟩ hp
  unfold create_cdf_df at hp
  have h2 := (List.of_mem_zip hp).2
  obtain ⟨i, hi, hib⟩ := List.mem_map.1 h2
  rw [List.mem_range] at hi
  have hn0 : 0 < (List.insertionSort (fun a b => a ≤ b)
      (data.filter (fun x => 0 < x))).length := by omega
  constructor
  · rw [← hib]
    apply div_pos
    · exact_mod_cast Nat.succ_pos i
    · exact_mod_cast hn0
  · rw [← hib]
    rw [div_le_one (by exact_mod_cast hn0)]
    exact_mod_cast hi

lemma create_cdf_df_eq_nil_iff (data : List ℚ) :
    create_cdf_df data = [] ↔ ∀ x ∈ data, ¬ 0 < x := by
  unfold create_cdf_df
  rw [← List.length_eq_zero]
  rw [List.length_zip, List.length_map, List.length_range, Nat.min_self]
  rw [(List.perm_insertionSort (fun a b => a ≤ b) _).length_eq]
  rw [List.length_eq_zero, List.filter_eq_nil_iff]
  simp

/-- Claim C4: for the single-month observation list `[0, 0, 2, 4, 4, 6]`, the
empirical CDF builder excludes the zeros and produces the table with value
column `[2, 4, 4, 6]` and probability column `[0.25, 0.5, 0.75, 1.0]`
(probability `rank/n`, rank starting at 1 over the sorted positive values). -/
theorem create_cdf_example :
    create_cdf_df [0, 0, 2, 4, 4, 6] = [(2, 1/4), (4, 1/2), (4, 3/4), (6, 1)] := by
  norm_num [create_cdf_df, List.insertionSort, List.orderedInsert, List.filter,
    List.range_succ, List.zip, List.zipWith]

/-- Counterexample to claim C5 as stated: the table built from
`[0, 0, 2, 4, 4, 6]` (duplicate positive value 4) has value column
`[2, 4, 4, 6]`, which is not strictly increasing. -/
theorem create_cdf_not_strictly_increasing :
    ¬ ((create_cdf_df [0, 0, 2, 4, 4, 6]).map Prod.fst).Sorted
        (fun a b => a < b) := by
  have h : (create_cdf_df [0, 0, 2, 4, 4, 6]).map Prod.fst = [2, 4, 4, 6] := by
    norm_num [create_cdf_df, List.insertionSort, List.orderedInsert, List.filter,
      List.range_succ, List.zip, List.zipWith]
  rw [h]
  intro hs
  obtain ⟨-, hs2⟩ := List.sorted_cons.1 hs
  obtain ⟨h4, -⟩ := List.sorted_cons.1 hs2
  exact lt_irrefl (4 : ℚ) (h4 4 (by simp))

/-- Claim C5 (amended): every table produced by the builder has a
non-decreasing (sorted ascending, duplicates allowed) value column,
probabilities in `(0, 1]`, and the table is empty exactly when the input has
no positive observation. -/
theorem create_cdf_invariant (data : List ℚ) :
    ((create_cdf_df data).map Prod.fst).Sorted (fun a b => a ≤ b) ∧
    (∀ p ∈ create_cdf_df data, 0 < p.2 ∧ p.2 ≤ 1) ∧
    (create_cdf_df data = [] ↔ ∀ x ∈ data, ¬ 0 < x) :=
  ⟨create_cdf_df_sorted data, create_cdf_df_snd_bounds data,
    create_cdf_df_eq_nil_iff data⟩

/-! ## Power (boxcox-style) transform -/

lemma boxcox_scalar (texp x : ℝ) (he : 0 < texp) (hx : 0 ≤ x) :
    ((if ((if x < 0 then 0 else x) ^ (1 / texp) - 1) / (1 / texp) < -texp
        then -texp
        else ((if x < 0 then 0 else x) ^ (1 / texp) - 1) / (1 / texp)) / texp
      + 1) ^ texp = x := by
  have hne : texp ≠ 0 := ne_of_gt he
  rw [if_neg (not_lt.2 hx)]
  have hy : (x ^ (1 / texp) - 1) / (1 / texp) = (x ^ (1 / texp) - 1) * texp := by
    field_simp
  have h0 : 0 ≤ x ^ (1 / texp) := Real.rpow_nonneg hx _
  have hge : ¬ ((x ^ (1 / texp) - 1) / (1 / texp) < -texp) := by
    rw [hy]
    nlinarith
  rw [if_neg hge, hy]
  have h2 : (x ^ (1 / texp) - 1) * texp / texp + 1 = x ^ (1 / texp) := by
    field_simp
  rw [h2, ← Real.rpow_mul hx, one_div_mul_cancel hne, Real.rpow_one]

/-- Claim C3: for every array with non-negative entries and every exponent
`texp > 0`, the power back transform inverts the forward power transform
exactly (in real arithmetic); the forward clamp at 0 and the inverse clamp at
`-texp` never bite on such inputs. -/
theorem boxcox_roundtrip (data : List ℝ) (texp : ℝ) (he : 0 < texp)
    (hx : ∀ x ∈ data, 0 ≤ x) :
    boxcox_back_transform (boxcox_transform data texp) texp = data := by
  unfold boxcox_transform boxcox_back_transform
  simp only [List.map_map]
  trans List.map id data
  · exact List.map_congr_left (fun a ha => boxcox_scalar texp a he (hx a ha))
  · exact List.map_id data

/-- Witness for C3 at the concrete input `[0, 2]`, `texp = 1`. -/
theorem boxcox_roundtrip_witness :
    (0 : ℝ) < 1 ∧ (∀ x ∈ ([0, 2] : List ℝ), 0 ≤ x) ∧
    boxcox_back_transform (boxcox_transform [0, 2] 1) 1 = [0, 2] :=
  ⟨one_pos, by norm_num, boxcox_roundtrip [0, 2] 1 one_pos (by norm_num)⟩

/-! ## Forward quantile transform at the maximum observed value -/

lemma table_head_le_last (p0 : ℚ × ℚ) (rest : List (ℚ × ℚ))
    (hs : ((p0 :: rest).map Prod.fst).Sorted (fun a b => a ≤ b)) :
    p0.1 ≤ (rest.getLastD p0).1 := by
  rw [List.map_cons] at hs
  obtain ⟨h1, -⟩ := List.sorted_cons.1 hs
  rcases List.mem_cons.1 (List.getLastD_mem_cons rest p0) with h | h
  · rw [h]
  · exact h1 _ (List.mem_map_of_mem _ h)

/-- Counterexample to claim C2 as stated: a stratum with exactly one positive
observation has a non-empty one-row table, and there the scipy `interp1d`
constructor raises ValueError instead of yielding any z-score — the forward
transform of the maximum observed value is undefined, not a bounded z-score. -/
theorem forward_max_one_row_raises :
    create_cdf_df [1] ≠ [] ∧
    nqt_stratum_z id (create_cdf_df [1]) (max_observed (create_cdf_df [1]))
      = none ∧
    ¬ ∃ z, nqt_stratum_z id (create_cdf_df [1])
        (max_observed (create_cdf_df [1])) = some (some z) ∧
      z ≤ id (99999 / 100000) := by
  have h : create_cdf_df [1] = [(1, 1)] := by
    norm_num [create_cdf_df, List.insertionSort, List.orderedInsert,
      List.filter, List.range_succ, List.zip, List.zipWith]
  have hnone : nqt_stratum_z id (create_cdf_df [1])
      (max_observed (create_cdf_df [1])) = none := by
    rw [h]
    simp [nqt_stratum_z, interp1d_ctor]
  refine ⟨by rw [h]; exact List.cons_ne_nil _ _, hnone, ?_⟩
  rintro ⟨z, hz, -⟩
  rw [hnone] at hz
  exact Option.noConfusion hz

/-- Claim C2 (amended): for every stratum whose empirical CDF table has at
least two rows, the forward quantile transform of the maximum observed value
of that stratum is defined (the `interp1d` constructor succeeds and the query
is in range, so not NaN) and at most `ppf 0.99999`, for every monotone
inverse normal CDF `ppf`, because the interpolated cumulative probability is
clipped to at most `0.99999` before `ppf` is applied.  A non-empty table with
a single row instead raises in the constructor
(`forward_max_one_row_raises`). -/
theorem forward_max_value_bounded (ppf : ℚ → ℚ) (hppf : Monotone ppf)
    (data : List ℚ) (h2 : 2 ≤ (create_cdf_df data).length) :
    ∃ z, nqt_stratum_z ppf (create_cdf_df data)
        (max_observed (create_cdf_df data)) = some (some z) ∧
      z ≤ ppf (99999 / 100000) := by
  have hne : create_cdf_df data ≠ [] := by
    intro h
    rw [h] at h2
    simp at h2
  obtain ⟨p0, rest, htab⟩ := List.exists_cons_of_ne_nil hne
  have hmax : max_observed (create_cdf_df data) = (rest.getLastD p0).1 := by
    rw [htab, max_observed, List.getLastD_cons]
  have hs := create_cdf_df_sorted data
  rw [htab] at hs
  have hle : p0.1 ≤ (rest.getLastD p0).1 := table_head_le_last p0 rest hs
  set m := max_observed (create_cdf_df data) with hm
  refine ⟨ppf (np_clip (lin_interp_extrap p0 rest m) 0 (99999 / 100000)),
    ?_, ?_⟩
  · rw [nqt_stratum_z, interp1d_ctor, if_pos h2, Option.map_some']
    rw [htab]
    simp only [interp1d]
    rw [if_neg (by rw [hmax]; push_neg; exact ⟨hle, le_refl _⟩)]
    rfl
  · exact hppf (min_le_right _ _)

/-- Witness for C2 (amended) at the two-observation stratum `[1, 2]` with
`ppf = id`. -/
theorem forward_max_value_bounded_witness :
    Monotone (id : ℚ → ℚ) ∧ 2 ≤ (create_cdf_df [1, 2]).length ∧
    (∃ z, nqt_stratum_z id (create_cdf_df [1, 2])
        (max_observed (create_cdf_df [1, 2])) = some (some z) ∧
      z ≤ id (99999 / 100000)) :=
  ⟨monotone_id,
   by norm_num [create_cdf_df, List.insertionSort, List.orderedInsert,
     List.filter, List.range_succ, List.zip, List.zipWith],
   forward_max_value_bounded id monotone_id [1, 2]
     (by norm_num [create_cdf_df, List.insertionSort, List.orderedInsert,
       List.filter, List.range_succ, List.zip, List.zipWith])⟩

/-! ## All-NaN station columns in the forward transform -/

/-- Claim C1: for every input matrix, a station column whose values are all
missing for the whole period is missing (`none`, i.e. NaN) in the forward
quantile-normal output — not zero and not the `min_z_value` floor — because
the `nan_columns` exclusion overwrites the column after the generic
`np.nan_to_num` floor-fill pass. -/
theorem nqt_all_nan_column_stays_nan (ppf : ℚ → ℚ)
    (cdfs : ℕ → ℕ → List (ℚ × ℚ)) (min_z_value : ℚ) (times : List ℕ)
    (data : List (List (Option ℚ))) (j : ℕ) (hj : j < data.length)
    (hcol : ∀ v ∈ data.getD j [], v = none) :
    (normal_quantile_transform ppf cdfs min_z_value times data).length
      = data.length ∧
    ∀ z ∈ (normal_quantile_transform ppf cdfs min_z_value times data).getD j [],
      z = none := by
  have hlen : (normal_quantile_transform ppf cdfs min_z_value times data).length
      = data.length := by
    simp [normal_quantile_transform]
  refine ⟨hlen, ?_⟩
  intro z hz
  rw [List.getD_eq_getElem _ _ (by rw [hlen]; exact hj)] at hz
  simp only [normal_quantile_transform, List.getElem_map, List.getElem_zip] at hz
  have hcond : (data[j].all fun v => v.isNone) = true := by
    rw [List.all_eq_true]
    intro v hv
    have h := hcol v (by rwa [List.getD_eq_getElem _ _ hj])
    simp [h]
  rw [if_pos hcond] at hz
  simp only [List.mem_map] at hz
  obtain ⟨w, hw, hwz⟩ := hz
  exact hwz.symm

/-- Witness for C1: a single station whose two observations are both NaN. -/
theorem nqt_all_nan_column_stays_nan_witness :
    0 < ([[(none : Option ℚ), none]] : List (List (Option ℚ))).length ∧
    (∀ v ∈ ([[(none : Option ℚ), none]] : List (List (Option ℚ))).getD 0 [],
      v = none) ∧
    ((normal_quantile_transform (fun _ => 0) (fun _ _ => []) (-4) [1, 2]
        [[(none : Option ℚ), none]]).length = 1 ∧
     ∀ z ∈ (normal_quantile_transform (fun _ => 0) (fun _ _ => []) (-4) [1, 2]
        [[(none : Option ℚ), none]]).getD 0 [], z = none) :=
  ⟨by decide, by simp,
   nqt_all_nan_column_stays_nan (fun _ => 0) (fun _ _ => []) (-4) [1, 2]
     [[(none : Option ℚ), none]] 0 (by decide) (by simp)⟩

/-! ## Sparse-station neighbor pooling -/

lemma pooled_values_zero (nearby : ℕ → List ℚ) : pooled_values nearby 0 = [] := by
  simp [pooled_values]

lemma pooled_values_succ (nearby : ℕ → List ℚ) (k : ℕ) :
    pooled_values nearby (k + 1) = pooled_values nearby k ++ nearby k := by
  simp [pooled_values, List.range_succ]

lemma add_nearby_loop_spec (min_obs : ℕ) (own : List ℚ) (nearby : ℕ → List ℚ) :
    ∀ fuel iter, 5 - iter ≤ fuel → 1 ≤ iter → iter ≤ 5 →
    ∃ k, iter ≤ k ∧ k ≤ 5 ∧
      add_nearby_loop min_obs own nearby (own ++ pooled_values nearby iter)
        (own ++ pooled_values nearby iter).length iter
        = own ++ pooled_values nearby k ∧
      (∀ j, iter ≤ j → j < k →
        (own ++ pooled_values nearby j).length < min_obs) ∧
      (k < 5 → min_obs ≤ (own ++ pooled_values nearby k).length) := by
  intro fuel
  induction fuel with
  | zero =>
    intro iter hf h1 h5
    have h55 : iter = 5 := by omega
    subst h55
    rw [add_nearby_loop]
    rw [dif_neg (by omega)]
    exact ⟨5, le_refl 5, le_refl 5, rfl, by omega, by omega⟩
  | succ f ih =>
    intro iter hf h1 h5
    rw [add_nearby_loop]
    by_cases hcond : (own ++ pooled_values nearby iter).length < min_obs ∧ iter < 5
    · rw [dif_pos hcond]
      have hif : (if iter = 0 then own else own ++ pooled_values nearby iter)
          = own ++ pooled_values nearby iter := if_neg (by omega)
      simp only [hif]
      have hstep : own ++ pooled_values nearby iter ++ nearby iter
          = own ++ pooled_values nearby (iter + 1) := by
        rw [pooled_values_succ, List.append_assoc]
      rw [hstep]
      obtain ⟨k, hk1, hk2, hk3, hk4, hk5⟩ :=
        ih (iter + 1) (by omega) (by omega) (by omega)
      refine ⟨k, by omega, hk2, hk3, ?_, hk5⟩
      intro j hj1 hj2
      rcases eq_or_lt_of_le hj1 with h | h
      · rw [← h]; exact hcond.1
      · exact hk4 j (by omega) hj2
    · rw [dif_neg hcond]
      refine ⟨iter, le_refl _, h5, rfl, by omega, ?_⟩
      intro hlt
      rcases not_and_or.1 hcond with h | h
      · omega
      · omega

/-- Claim C6: when the monthly table of a station has fewer than `min_obs` valid
observations, the remediation pools neighbor value columns one neighbor at a
time, stopping as soon as the pooled count reaches the threshold or after
exactly 5 neighbors; the pooled table is rebuilt by `create_cdf_df` and is
accepted as-is (totally, with no error) even when still below the threshold
after 5 neighbors. -/
theorem add_nearby_station_spec (min_obs : ℕ) (own_table : List (ℚ × ℚ))
    (nearby : ℕ → List ℚ)
    (hsparse : (own_table.map Prod.fst).length < min_obs) :
    ∃ k, 1 ≤ k ∧ k ≤ 5 ∧
      add_nearby_station min_obs own_table nearby
        = create_cdf_df (own_table.map Prod.fst ++ pooled_values nearby k) ∧
      (∀ j, j < k →
        (own_table.map Prod.fst ++ pooled_values nearby j).length < min_obs) ∧
      (k < 5 →
        min_obs ≤ (own_table.map Prod.fst ++ pooled_values nearby k).length) := by
  unfold add_nearby_station
  rw [if_pos hsparse]
  rw [add_nearby_loop]
  rw [dif_pos ⟨hsparse, by omega⟩]
  simp only [if_true]
  have hstep : own_table.map Prod.fst ++ nearby 0
      = own_table.map Prod.fst ++ pooled_values nearby 1 := by
    rw [show (1 : ℕ) = 0 + 1 from rfl, pooled_values_succ, pooled_values_zero,
      List.nil_append]
  rw [hstep]
  obtain ⟨k, hk1, hk2, hk3, hk4, hk5⟩ :=
    add_nearby_loop_spec min_obs (own_table.map Prod.fst) nearby 4 1
      (by omega) (by omega) (by omega)
  refine ⟨k, hk1, hk2, by rw [hk3], ?_, hk5⟩
  intro j hj
  rcases Nat.eq_zero_or_pos j with rfl | hjpos
  · rw [pooled_values_zero, List.append_nil]; exact hsparse
  · exact hk4 j (by omega) hj

/-- Witness for C6: an empty station table, threshold 1, every neighbor
contributing one value. -/
theorem add_nearby_station_spec_witness :
    (([] : List (ℚ × ℚ)).map Prod.fst).length < 1 ∧
    (∃ k, 1 ≤ k ∧ k ≤ 5 ∧
      add_nearby_station 1 [] (fun _ => [1])
        = create_cdf_df (([] : List (ℚ × ℚ)).map Prod.fst
            ++ pooled_values (fun _ => [1]) k) ∧
      (∀ j, j < k →
        (([] : List (ℚ × ℚ)).map Prod.fst
          ++ pooled_values (fun _ => [1]) j).length < 1) ∧
      (k < 5 →
        1 ≤ (([] : List (ℚ × ℚ)).map Prod.fst
          ++ pooled_values (fun _ => [1]) k).length)) :=
  ⟨by simp, add_nearby_station_spec 1 [] (fun _ => [1]) (by simp)⟩

/-! ## Small-value flooring in the inverse transforms -/

lemma filter_small_mem (min_est_value : ℚ) (vals : List ℚ) (v : ℚ)
    (hv : v ∈ (vals.map
        (fun w => if w < min_est_value then (none : Option ℚ) else some w)).map
      (fun o => o.getD 0)) :
    v = 0 ∨ min_est_value ≤ v := by
  simp only [List.mem_map] at hv
  obtain ⟨o, ⟨w, hwmem, hwo⟩, hov⟩ := hv
  by_cases hlt : w < min_est_value
  · rw [if_pos hlt] at hwo
    rw [← hwo] at hov
    left
    exact hov.symm
  · rw [if_neg hlt] at hwo
    rw [← hwo] at hov
    right
    rw [← hov]
    exact le_of_not_lt hlt

/-- Claim C7: in the empirical-CDF inverse transform and on both paths of the
gamma inverse transform, every reconstructed value strictly below
`min_est_value` is first marked missing and then, with all other missing
values, converted to exactly 0, so the output contains no value in the open
interval `(0, min_est_value)` and no missing values (the output type is
total). -/
theorem inverse_transforms_no_small_values (normCdf gamma_ppf : ℚ → ℚ)
    (table : List (ℚ × ℚ)) (min_est_value : ℚ) (zs zs2 zs3 : List ℚ) :
    (∀ v ∈ inverse_nqt_stratum normCdf table min_est_value zs,
      v = 0 ∨ min_est_value ≤ v) ∧
    (∀ v ∈ gamma_back_stratum false normCdf gamma_ppf min_est_value zs2,
      v = 0 ∨ min_est_value ≤ v) ∧
    (∀ v ∈ gamma_back_stratum true normCdf gamma_ppf min_est_value zs3,
      v = 0 ∨ min_est_value ≤ v) := by
  refine ⟨?_, ?_, ?_⟩
  · intro v hv
    simp only [inverse_nqt_stratum] at hv
    rcases Decidable.em (table = []) with htab | htab
    · rw [if_neg (not_not_intro htab)] at hv
      obtain ⟨w, -, hw⟩ := List.mem_map.1 hv
      left
      exact hw.symm
    · rw [if_pos htab] at hv
      exact filter_small_mem min_est_value _ v hv
  · intro v hv
    simp only [gamma_back_stratum] at hv
    rcases Decidable.em (zs2 = []) with hz | hz
    · rw [if_pos hz] at hv
      simp at hv
    · rw [if_neg hz] at hv
      simp only [Bool.false_eq_true, if_false, gamma_back_values] at hv
      exact filter_small_mem min_est_value _ v hv
  · intro v hv
    simp only [gamma_back_stratum] at hv
    rcases Decidable.em (zs3 = []) with hz | hz
    · rw [if_pos hz] at hv
      simp at hv
    · rw [if_neg hz] at hv
      simp only [if_true, gamma_back_values] at hv
      exact filter_small_mem min_est_value _ v hv

/-! ## Dispatcher fatal exits -/

/-- Claim C8: the dispatcher terminates the process (`sys.exit`, modelled by
`TransformResult.exit`) for every method tag outside
`{boxcox, ecdf, gamma_monthly}`, and for every recognized method with a mode
tag outside `{transform, back_transform}`, instead of returning a value. -/
theorem data_transformation_unknown_exits {α : Type} (method mode : String)
    (f1 f2 f3 f4 f5 f6 : α → α) (data : α)
    (h : (method ≠ "boxcox" ∧ method ≠ "ecdf" ∧ method ≠ "gamma_monthly") ∨
      ((method = "boxcox" ∨ method = "ecdf" ∨ method = "gamma_monthly") ∧
        mode ≠ "transform" ∧ mode ≠ "back_transform")) :
    data_transformation method mode f1 f2 f3 f4 f5 f6 data
      = TransformResult.exit := by
  unfold data_transformation
  rcases h with ⟨h1, h2, h3⟩ | ⟨hm, h4, h5⟩
  · rw [if_neg h1, if_neg h2, if_neg h3]
  · rcases hm with hb | he | hg
    · subst hb
      rw [if_pos rfl, if_neg h4, if_neg h5]
    · subst he
      rw [if_neg (by decide), if_pos rfl, if_neg h4, if_neg h5]
    · subst hg
      rw [if_neg (by decide), if_neg (by decide), if_pos rfl, if_neg h4,
        if_neg h5]

/-- Witness for C8: the unrecognized method tag `"quantile"`. -/
theorem data_transformation_unknown_exits_witness :
    (("quantile" ≠ "boxcox" ∧ "quantile" ≠ "ecdf" ∧
        "quantile" ≠ "gamma_monthly") ∨
      (("quantile" = "boxcox" ∨ "quantile" = "ecdf" ∨
          "quantile" = "gamma_monthly") ∧
        "transform" ≠ "transform" ∧ "transform" ≠ "back_transform")) ∧
    data_transformation "quantile" "transform" (id : ℕ → ℕ) id id id id id 0
      = TransformResult.exit :=
  ⟨Or.inl (by decide),
   data_transformation_unknown_exits "quantile" "transform" id id id id id id 0
     (Or.inl (by decide))⟩

/-! ## Probability clipping asymmetry in the gamma inverse transform -/

/-- Claim C10: the gamma inverse transform clips cumulative probabilities to
at most 0.99999 only on the 3-D gridded path; on the 2-D per-station path the
`norm.cdf` probability is passed unclipped to `gamma.ppf`, so whenever the probability of
some z-score exceeds 0.99999 the 2-D path feeds `gamma.ppf` a
probability above 0.99999, while every probability on the 3-D path is at most
0.99999. -/
theorem gamma_clip_only_3d (normCdf : ℚ → ℚ) (z0 : ℚ)
    (hz : 99999 / 100000 < normCdf z0) (zs : List ℚ) :
    (∀ p ∈ gamma_back_probs_3d normCdf zs, p ≤ 99999 / 100000) ∧
    (∃ p ∈ gamma_back_probs_2d normCdf [z0], 99999 / 100000 < p) := by
  constructor
  · intro p hp
    simp only [gamma_back_probs_3d, List.mem_map] at hp
    obtain ⟨q, -, hq⟩ := hp
    rw [← hq, np_clip]
    exact min_le_right _ _
  · exact ⟨normCdf z0, by simp [gamma_back_probs_2d], hz⟩

/-- Witness for C10: a normal CDF reaching probability 1. -/
theorem gamma_clip_only_3d_witness :
    (99999 / 100000 : ℚ) < 1 ∧
    ((∀ p ∈ gamma_back_probs_3d (fun _ => 1) [0], p ≤ 99999 / 100000) ∧
     (∃ p ∈ gamma_back_probs_2d (fun _ => 1) [(0 : ℚ)], 99999 / 100000 < p)) :=
  ⟨by norm_num, gamma_clip_only_3d (fun _ => 1) 0 (by norm_num) [0]⟩

/-! ## The power transforms do not mutate their input -/

/-- Claim C9: `boxcox_transform` and `boxcox_back_transform` copy their input
(`data = data.copy()`) before the in-place clamp, so the array of the caller is
unchanged by the call — including when it contains negative values that the
clamp would rewrite. -/
theorem boxcox_preserves_input (h : NpHeap) (r : ℕ) (hr : r < h.next)
    (texp : ℝ) :
    (boxcox_transform_np h r texp).1.read r = h.read r ∧
    (boxcox_back_transform_np h r texp).1.read r = h.read r := by
  have h1 : r ≠ h.next := by omega
  have h2 : r ≠ h.next + 1 := by omega
  constructor
  · simp [boxcox_transform_np, NpHeap.alloc, NpHeap.write, NpHeap.read,
      Function.update_noteq h1, Function.update_noteq h2]
  · simp [boxcox_back_transform_np, NpHeap.alloc, NpHeap.write, NpHeap.read,
      Function.update_noteq h1, Function.update_noteq h2]

/-- Witness for C9 on a one-array heap holding `[-1]` (a negative value the
clamp would rewrite). -/
theorem boxcox_preserves_input_witness :
    (0 : ℕ) < (NpHeap.mk (fun _ => [-1]) 1).next ∧
    ((boxcox_transform_np (NpHeap.mk (fun _ => [-1]) 1) 0 4).1.read 0
        = (NpHeap.mk (fun _ => [-1]) 1).read 0 ∧
     (boxcox_back_transform_np (NpHeap.mk (fun _ => [-1]) 1) 0 4).1.read 0
        = (NpHeap.mk (fun _ => [-1]) 1).read 0) :=
  ⟨Nat.zero_lt_one,
   boxcox_preserves_input (NpHeap.mk (fun _ => [-1]) 1) 0 Nat.zero_lt_one 4⟩
